import Mathlib

/-!
Verification of the EDINET financial-disclosure enrichment scripts
(`scripts/edinet_fetch_financials.py` and `scripts/edinet_fetch_financials_skip.py`)
against their design specification.

Modelling conventions.
Python strings are modelled as `List Char` (`PyStr`); Python string order,
`str.lower`, `str.strip`, slicing and `str.replace(",", "")` become the
corresponding list operations, and the lexicographic `LinearOrder (List Char)`
instance models CPython's code-point string comparison.
Python floats are modelled as exact rationals (`ℚ`); the builtin `float(text)`
is modelled by `py_float_text`, a parser for finite decimal literals with an
optional sign, an optional fractional part and an optional exponent (the
rarely-relevant `inf`/`nan` spellings and digit-group underscores are outside
the model).  Values that can be `None` are `Option`s; functions that catch
exceptions and return `None` are total functions into `Option`.
-/

namespace Edinet

/-- Python string contents: the list of characters of a `str` value. -/
abbrev PyStr : Type := List Char

/-- Model of `str.lower()` for the ASCII tag and alias names the scripts
compare (`Char.toLower` lowercases exactly the ASCII uppercase letters). -/
def lowerStr (s : PyStr) : PyStr := s.map Char.toLower

/-- Model of `str.strip()`: drop whitespace from both ends. -/
def trimChars (s : PyStr) : PyStr :=
  ((s.dropWhile Char.isWhitespace).reverse.dropWhile Char.isWhitespace).reverse

/-- Value of a list of decimal digit characters, most significant first. -/
def digitsVal (cs : PyStr) : ℕ := cs.foldl (fun a c => a * 10 + (c.toNat - 48)) 0

/-- Optional leading sign of a numeric literal: returns (isNegative, rest). -/
def parse_sign : PyStr → Bool × PyStr
  | '+' :: cs => (false, cs)
  | '-' :: cs => (true, cs)
  | cs => (false, cs)

/-- Mantissa of a decimal literal: digits with at most one point and at least
one digit (so `"1."`, `".5"`, `"12"` parse; `""`, `"."`, `"1.2.3"` do not). -/
def parse_mantissa (cs : PyStr) : Option ℚ :=
  let ip := cs.takeWhile (fun c => c != '.')
  let rest := cs.dropWhile (fun c => c != '.')
  match rest with
  | [] => if cs ≠ [] ∧ cs.all Char.isDigit then some ((digitsVal cs : ℕ) : ℚ) else none
  | _ :: fp =>
    if (ip ≠ [] ∨ fp ≠ []) ∧ ip.all Char.isDigit ∧ fp.all Char.isDigit then
      some ((digitsVal ip : ℕ) + ((digitsVal fp : ℕ) : ℚ) / (10 : ℚ) ^ fp.length)
    else none

/-- Exponent part after `e`/`E`: optional sign then a nonempty digit run. -/
def parse_exp (cs : PyStr) : Option ℤ :=
  let (neg, ds) := parse_sign cs
  if ds ≠ [] ∧ ds.all Char.isDigit then
    some (if neg then -(digitsVal ds : ℤ) else (digitsVal ds : ℤ))
  else none

/-- Model of the builtin `float(text)` on already-stripped text, restricted to
finite decimal literals and evaluated exactly in `ℚ`. -/
def py_float_text (cs : PyStr) : Option ℚ :=
  let (neg, cs1) := parse_sign cs
  let mant := cs1.takeWhile (fun c => c != 'e' && c != 'E')
  let rest := cs1.dropWhile (fun c => c != 'e' && c != 'E')
  match parse_mantissa mant with
  | none => none
  | some m =>
    match rest with
    | [] => some (if neg then -m else m)
    | _ :: ecs =>
      match parse_exp ecs with
      | none => none
      | some e => some ((if neg then -m else m) * (10 : ℚ) ^ e)

/-- The Numeric Text Normalizer `parse_number` (edinet_fetch_financials.py,
lines 184-201; identical in the skip variant): `None` passes through, the text
is stripped, empty text gives `None`, a value fully wrapped in parentheses is
negated, thousands-separator commas are removed, and the remainder goes
through `float(...)`, with parse failure caught as `None`. -/
def parse_number (value : Option PyStr) : Option ℚ :=
  match value with
  | none => none
  | some v =>
    let text := trimChars v
    if text = [] then none
    else
      let negative := (text.head? == some '(') && (text.getLast? == some ')')
      let text1 := if negative then (text.drop 1).dropLast else text
      let text2 := text1.filter (fun c => c != ',')
      match py_float_text text2 with
      | none => none
      | some num => some (if negative then -num else num)

/-- One reported numeric data point as collected by `collect_numeric_facts`
(edinet_fetch_financials.py, lines 829-869): the fact dict's keys `name`,
`value`, `contextRef`, `unitRef`, `decimals`, `period_end`, `consolidated`.
The scale factor is already applied to `value` at collection time. -/
structure Fact where
  name : PyStr
  value : ℚ
  contextRef : Option PyStr
  unitRef : Option PyStr
  decimals : Option PyStr
  period_end : Option PyStr
  consolidated : Bool
deriving DecidableEq, Repr

/-- The inner `sort_key` of `select_metric_value` (lines 880-883):
`(fact.get("period_end") or "", 1 if fact.get("consolidated") else 0)`. -/
def sort_key (f : Fact) : PyStr × ℕ :=
  (f.period_end.getD [], if f.consolidated then 1 else 0)

/-- Strict lexicographic order on `(periodEnd, consolidatedAsInt)` pairs,
as Python compares the tuples produced by `sort_key`. -/
def keyLt (a b : PyStr × ℕ) : Prop :=
  a.1 < b.1 ∨ (a.1 = b.1 ∧ a.2 < b.2)

/-- Reflexive lexicographic order on `(periodEnd, consolidatedAsInt)` pairs. -/
def keyLe (a b : PyStr × ℕ) : Prop :=
  a.1 < b.1 ∨ (a.1 = b.1 ∧ a.2 ≤ b.2)

instance (a b : PyStr × ℕ) : Decidable (keyLt a b) := by
  unfold keyLt
  exact inferInstance

instance (a b : PyStr × ℕ) : Decidable (keyLe a b) := by
  unfold keyLe
  exact inferInstance

/-- Python's `max(matched, key=sort_key)` on the nonempty list `f :: fs`:
scan left to right, replacing the current best exactly when the new element's
key is strictly greater (so the first maximal element wins ties). -/
def pickBest (f : Fact) (fs : List Fact) : Fact :=
  fs.foldl (fun best g => if keyLt (sort_key best) (sort_key g) then g else best) f

/-- The Metric Resolver `select_metric_value` (lines 872-885): facts whose
lower-cased name is in the lower-cased alias set are matched; no match gives
`None`; otherwise the fact with the greatest `sort_key` is selected. -/
def select_metric_value (facts : List Fact) (candidates : List PyStr) : Option Fact :=
  if facts.isEmpty then none
  else
    match facts.filter (fun f => (candidates.map lowerStr).contains (lowerStr f.name)) with
    | [] => none
    | f :: fs => some (pickBest f fs)

/-- The `COMMON_METRICS` alias table (lines 36-86): each canonical metric key
with its ordered list of acceptable tag-name aliases. -/
def COMMON_METRICS : List (PyStr × List PyStr) :=
  [ ("sales_amount".data,
      [ "netsales".data, "netsalessummaryofbusinessresults".data, "revenue".data,
        "revenuesummaryofbusinessresults".data, "operatingrevenue".data,
        "operatingrevenuesummaryofbusinessresults".data ]),
    ("operating_income".data,
      [ "operatingincome".data, "operatingincomesummaryofbusinessresults".data ]),
    ("ordinary_income".data,
      [ "ordinaryincome".data, "ordinaryincomesummaryofbusinessresults".data ]),
    ("net_income".data,
      [ "profitloss".data, "profitlosssummaryofbusinessresults".data,
        "profitlossattributabletoownersofparent".data,
        "profitlossattributabletoownersofparentsummaryofbusinessresults".data ]),
    ("total_assets".data, [ "assets".data ]),
    ("total_liabilities".data, [ "liabilities".data ]),
    ("total_equity".data, [ "equity".data, "netassets".data ]),
    ("cash_and_equivalents".data, [ "cashandcashequivalents".data ]),
    ("operating_cf".data, [ "netcashprovidedbyusedinoperatingactivities".data ]),
    ("investing_cf".data,
      [ "netcashprovidedbyusedininvestingactivities".data,
        "netcashprovidedbyusedininvestmentactivities".data ]),
    ("financing_cf".data, [ "netcashprovidedbyusedinfinancingactivities".data ]),
    ("eps".data,
      [ "earningspershare".data, "basicearningspershare".data,
        "earningspersharesummaryofbusinessresults".data ]),
    ("bps".data, [ "bookvaluepershare".data, "netassetspershare".data ]),
    ("roe".data,
      [ "returnonequity".data, "returnonequitysummaryofbusinessresults".data,
        "rateofreturnonequity".data ]),
    ("roa".data,
      [ "returnonassets".data, "returnonassetssummaryofbusinessresults".data,
        "rateofreturnonassets".data ]),
    ("employee_count".data, [ "numberofemployees".data, "numberofemployeesaverage".data ]) ]

/-- Python's `int(...)` applied to a float value: truncation toward zero
(exact in the rational model, where the coercion cannot raise). -/
def int_of_float (q : ℚ) : ℤ := if 0 ≤ q then ⌊q⌋ else -⌊-q⌋

/-- The body of the per-metric loop of `extract_metrics_from_xbrl`
(lines 893-906) for one `(key, candidates)` entry: the resolved value (with
the `employee_count` integer coercion) and the period end contributed to the
`period_ends` list (only a truthy, i.e. nonempty, period end is appended). -/
def metric_entry (facts : List Fact) (kv : PyStr × List PyStr) : Option ℚ × Option PyStr :=
  match select_metric_value facts kv.2 with
  | some f =>
    (some (if kv.1 = "employee_count".data then ((int_of_float f.value : ℤ) : ℚ) else f.value),
      match f.period_end with
      | some p => if p ≠ [] then some p else none
      | none => none)
  | none => (none, none)

/-- Python's `max(period_ends)` on a nonempty list of strings (first maximal
element wins, which is unobservable for equal strings), `None` when empty. -/
def pyMaxStr : List PyStr → Option PyStr
  | [] => none
  | x :: xs => some (xs.foldl (fun best g => if best < g then g else best) x)

/-- The collected `period_ends` list of `extract_metrics_from_xbrl`: the
truthy period end of each metric entry that resolved, in table order. -/
def resolved_period_ends (facts : List Fact) : List PyStr :=
  COMMON_METRICS.filterMap (fun kv => (metric_entry facts kv).2)

/-- The Metric Resolver driver `extract_metrics_from_xbrl` (lines 888-911)
restricted to its pure core: from the collected facts it builds the metrics
map (one entry per canonical key, in table order) and the overall period end
`max(period_ends) if period_ends else None`.  The XML parse, the surrounding
`collect_numeric_facts` call and the optional raw-facts JSON dump are outside
this model; the Python code stores the overall period end under the extra
`"period_end"` dict key, modelled here as the second component of the pair. -/
def extract_metrics_from_xbrl (facts : List Fact) : List (PyStr × Option ℚ) × Option PyStr :=
  (COMMON_METRICS.map (fun kv => (kv.1, (metric_entry facts kv).1)),
    pyMaxStr (resolved_period_ends facts))

/-- The Derived Ratio Calculator's guard `safe_div` (lines 1078-1081):
`None` when the numerator is `None` or the denominator is `None` or zero. -/
def safe_div (numerator denominator : Option ℚ) : Option ℚ :=
  match numerator, denominator with
  | none, _ => none
  | _, none => none
  | some n, some d => if d = 0 then none else some (n / d)

/-- The derived-ratio record returned by `compute_derived`. -/
structure Derived where
  gross_margin : Option ℚ
  operating_margin : Option ℚ
  net_margin : Option ℚ
  equity_ratio : Option ℚ
  cash_ratio : Option ℚ
deriving DecidableEq, Repr

/-- `metrics.get(key)` on the metrics map: `None` when the key is absent or
stored as `None`. -/
def metrics_get (metrics : List (PyStr × Option ℚ)) (key : PyStr) : Option ℚ :=
  (metrics.lookup key).join

/-- The Derived Ratio Calculator `compute_derived` (lines 1084-1098);
`gross_margin` is always `None` (no gross-profit source field). -/
def compute_derived (metrics : List (PyStr × Option ℚ)) : Derived :=
  { gross_margin := none
    operating_margin := safe_div (metrics_get metrics "operating_income".data)
      (metrics_get metrics "sales_amount".data)
    net_margin := safe_div (metrics_get metrics "net_income".data)
      (metrics_get metrics "sales_amount".data)
    equity_ratio := safe_div (metrics_get metrics "total_equity".data)
      (metrics_get metrics "total_assets".data)
    cash_ratio := safe_div (metrics_get metrics "cash_and_equivalents".data)
      (metrics_get metrics "total_assets".data) }


/-- One entry of the downloaded document ZIP as seen by `extract_xbrl_bytes`
(lines 810-826): the entry name, its `file_size` from the archive directory,
and the outcome of `ET.fromstring` on its content — `some tag` with the root
element's full tag when the entry reads and parses, `none` when reading or
parsing raises (the content bytes themselves are identified with the entry). -/
structure ZipEntry where
  name : PyStr
  file_size : ℕ
  parsed_root : Option PyStr
deriving DecidableEq, Repr

/-- `local_name` (lines 777-780): the substring after the first `}`, i.e.
the tag with its XML namespace prefix removed. -/
def local_name (tag : PyStr) : PyStr :=
  if tag.contains '}' then (tag.dropWhile (fun c => c != '}')).drop 1 else tag

/-- The candidate filter of `extract_xbrl_bytes`: the lower-cased entry name
ends in one of `.xbrl`, `.xml`, `.xhtml`, `.html`. -/
def recognized_ext (n : PyStr) : Bool :=
  ".xbrl".data.isSuffixOf (lowerStr n) || ".xml".data.isSuffixOf (lowerStr n) ||
    ".xhtml".data.isSuffixOf (lowerStr n) || ".html".data.isSuffixOf (lowerStr n)

/-- Success test of the candidate loop of `extract_xbrl_bytes`: the entry
parses and its root's local tag is `xbrl` or `html`. -/
def ok_root (e : ZipEntry) : Bool :=
  match e.parsed_root with
  | some t => local_name t == "xbrl".data || local_name t == "html".data
  | none => false

/-- The Archive Unpacker `extract_xbrl_bytes` (lines 810-826): filter entries
to recognized extensions, stable-sort by file size descending (CPython's
`list.sort(key=..., reverse=True)` keeps the original order of equal keys, as
`mergeSort` does here), and return the first candidate that parses to an
expected root; `none` models the function's `None` ("not found"). -/
def extract_xbrl_bytes (entries : List ZipEntry) : Option ZipEntry :=
  ((entries.filter (fun e => recognized_ext e.name)).mergeSort
      (fun a b => b.file_size ≤ a.file_size)).find? ok_root

/-- The document-summary fields of the EDINET document-list record that
`enrich_document` reads: both accepted spellings of the document id and of
the XBRL-availability flag (`doc.get` of an absent key is `none`). -/
structure EDoc where
  docID : Option PyStr
  docId : Option PyStr
  xbrlFlag : Option PyStr
  XBRLFlag : Option PyStr
deriving DecidableEq, Repr

/-- Python truthiness of an optional string: `None` and `""` are falsy. -/
def pyTruthy : Option PyStr → Bool
  | none => false
  | some s => s != []

/-- Python's `a or b` on optional strings: `a` when truthy, else `b`. -/
def pyOr (a b : Option PyStr) : Option PyStr := if pyTruthy a then a else b

/-- `doc.get("docID") or doc.get("docId")` (line 1112). -/
def doc_id_of (d : EDoc) : Option PyStr := pyOr d.docID d.docId

/-- `str(doc.get("xbrlFlag") or doc.get("XBRLFlag") or "")` (line 1113). -/
def xbrl_flag_of (d : EDoc) : PyStr := (pyOr d.xbrlFlag d.XBRLFlag).getD []

/-- The initial all-`None` metrics dict `{k: None for k in COMMON_METRICS}`
(line 1114). -/
def all_null_metrics : List (PyStr × Option ℚ) :=
  COMMON_METRICS.map (fun kv => (kv.1, (none : Option ℚ)))

/-- Per-document enrichment `enrich_document` (lines 1111-1126), with the
network and archive stage abstracted into the `fetched` argument: when the
fetch path runs, `some facts` stands for a ZIP whose payload was found and
parsed into `facts`, and `none` for `extract_xbrl_bytes` returning `None`.
The result pairs the computed `(metrics, overall period end, derived ratios)`
with a flag recording whether `fetch_document_zip` was invoked at all. -/
def enrich_document (fetched : Option (List Fact)) (d : EDoc) :
    (List (PyStr × Option ℚ) × Option PyStr × Derived) × Bool :=
  if pyTruthy (doc_id_of d) && (xbrl_flag_of d == "1".data) then
    match fetched with
    | some facts =>
      ((((extract_metrics_from_xbrl facts).1, (extract_metrics_from_xbrl facts).2,
          compute_derived (extract_metrics_from_xbrl facts).1)), true)
    | none => ((all_null_metrics, none, compute_derived all_null_metrics), true)
  else ((all_null_metrics, none, compute_derived all_null_metrics), false)

/-- The fan-in's try/except around `future.result()` (lines 1197-1204): a
worker that raised is replaced by the original input document. -/
def process {α ε : Type} (run : α → Except ε α) (d : α) : α :=
  match run d with
  | Except.ok e => e
  | Except.error _ => d

/-- `enriched_by_date.setdefault(key, []).append(d)` on an insertion-ordered
dict of lists, modelled as an association list with unique keys. -/
def group_insert {α : Type} : List (PyStr × List α) → PyStr → α → List (PyStr × List α)
  | [], key, d => [(key, [d])]
  | g :: gs, key, d =>
    if g.1 = key then (g.1, g.2 ++ [d]) :: gs else g :: group_insert gs key d

/-- The orchestrator's fan-in loop over `as_completed(futures)` (lines
1196-1208): results arrive in an arbitrary completion order (`order`), each
future's exception is caught per document (`process`), and every result is
appended to the group of its `_fetched_date`. -/
def fan_in {α ε : Type} (dateOf : α → PyStr) (run : α → Except ε α)
    (order : List α) : List (PyStr × List α) :=
  order.foldl (fun groups d => group_insert groups (dateOf (process run d)) (process run d)) []

/-- A row to be written by `save_documents`, reduced to its conflict key: the
`doc_id` cell (`NULL` when both id spellings are missing) and all remaining
cells bundled as `cols` (every column of the table except `doc_id`). -/
structure SRow (α : Type) where
  doc_id : Option PyStr
  cols : α
deriving DecidableEq

/-- One row of `INSERT ... ON CONFLICT(doc_id) DO UPDATE SET <all columns
except doc_id> = excluded.<...>` against the unique index on `doc_id`
(edinet_fetch_financials.py, lines 1052-1061): a `NULL` key always inserts
(SQLite unique indexes treat `NULL`s as distinct); a conflicting key replaces
the non-key columns of the existing row; otherwise the row is appended. -/
def upsert_row {α : Type} : List (SRow α) → SRow α → List (SRow α)
  | store, r =>
    match r.doc_id with
    | none => store ++ [r]
    | some i =>
      if store.any (fun x => x.doc_id == some i) then
        store.map (fun x => if x.doc_id == some i then { doc_id := x.doc_id, cols := r.cols } else x)
      else store ++ [r]

/-- `save_documents` of the main script (lines 967-1075): the batch's rows are
written in order with upsert-on-doc_id semantics (the same statement is issued
against both destination tables; the model tracks one table). -/
def save_documents {α : Type} (store : List (SRow α)) (rows : List (SRow α)) : List (SRow α) :=
  rows.foldl upsert_row store

/-- One row of `INSERT ... ON CONFLICT(doc_id) DO NOTHING`
(edinet_fetch_financials_skip.py, lines 975-983): a conflicting key leaves the
store untouched. -/
def insert_or_ignore_row {α : Type} : List (SRow α) → SRow α → List (SRow α)
  | store, r =>
    match r.doc_id with
    | none => store ++ [r]
    | some i =>
      if store.any (fun x => x.doc_id == some i) then store else store ++ [r]

/-- `save_documents` of the skip variant (edinet_fetch_financials_skip.py,
lines 895-985): insert-or-ignore keyed by `doc_id`. -/
def save_documents_skip {α : Type} (store : List (SRow α)) (rows : List (SRow α)) :
    List (SRow α) :=
  rows.foldl insert_or_ignore_row store

/-- A Python value as it reaches `round_numeric`: `None`, an `int`, a float
(modelled as an exact rational), or a string. -/
inductive PyVal where
  | vNone : PyVal
  | vInt : ℤ → PyVal
  | vFloat : ℚ → PyVal
  | vStr : PyStr → PyVal
deriving DecidableEq

/-- The builtin `float(value)` as used inside `round_numeric`: `None` raises
`TypeError` (caught by the caller), numbers convert, and strings are stripped
and parsed as decimal literals (`ValueError` on failure, caught likewise). -/
def py_float : PyVal → Option ℚ
  | PyVal.vNone => none
  | PyVal.vInt n => some (n : ℚ)
  | PyVal.vFloat q => some q
  | PyVal.vStr s => py_float_text (trimChars s)

/-- Round-half-to-even to the nearest integer, the tie rule of Python's
builtin `round` (evaluated exactly in the rational model of floats). -/
def round_half_even (x : ℚ) : ℤ :=
  if Int.fract x < 1 / 2 then ⌊x⌋
  else if 1 / 2 < Int.fract x then ⌊x⌋ + 1
  else if 2 ∣ ⌊x⌋ then ⌊x⌋ else ⌊x⌋ + 1

/-- `round(q, 4)`: round to the nearest multiple of `10 ^ (-4)`, ties to
even. -/
def round4 (q : ℚ) : ℚ := ((round_half_even (q * 10000) : ℤ) : ℚ) / 10000

/-- `round_numeric` (lines 222-230): `None` passes through, `int`s pass
through unchanged, everything else goes through `round(float(value), 4)` with
`TypeError`/`ValueError` caught as `None`. -/
def round_numeric (value : PyVal) : PyVal :=
  match value with
  | PyVal.vNone => PyVal.vNone
  | PyVal.vInt n => PyVal.vInt n
  | v =>
    match py_float v with
    | some q => PyVal.vFloat (round4 q)
    | none => PyVal.vNone

/-- The columns of the row tuple built in the main script's `save_documents`
(lines 1024-1044) whose cells are wrapped in `round_numeric` before the
upsert: the 15 float-valued metrics and the 5 derived ratios ,
in tuple order (`employee_count`, the ids, the text fields, `raw_json` and
the timestamps are stored without rounding). -/
def roundedColumns : List PyStr :=
  [ "sales_amount".data, "operating_income".data, "ordinary_income".data,
    "net_income".data, "total_assets".data, "total_liabilities".data,
    "total_equity".data, "cash_and_equivalents".data, "operating_cf".data,
    "investing_cf".data, "financing_cf".data, "eps".data, "bps".data,
    "roe".data, "roa".data, "gross_margin".data, "operating_margin".data,
    "net_margin".data, "equity_ratio".data, "cash_ratio".data ]

/-- The numeric cells of the row tuple of the main script's `save_documents`
(lines 1015-1048), one `(column, round_numeric (doc.get(column)))` pair per
rounded column; `doc` maps a column name to the enriched document's value for
it (absent keys being `None`). -/
def save_row_numeric (doc : PyStr → PyVal) : List (PyStr × PyVal) :=
  roundedColumns.map (fun c => (c, round_numeric (doc c)))


theorem keyLe_refl (a : PyStr × ℕ) : keyLe a a := Or.inr ⟨rfl, le_refl _⟩

theorem keyLt_keyLe (a b : PyStr × ℕ) (h : keyLt a b) : keyLe a b := by
  rcases h with h | ⟨h1, h2⟩
  · exact Or.inl h
  · exact Or.inr ⟨h1, le_of_lt h2⟩

theorem keyLe_trans (a b c : PyStr × ℕ) (hab : keyLe a b) (hbc : keyLe b c) : keyLe a c := by
  rcases hab with h1 | ⟨h1, h2⟩ <;> rcases hbc with h3 | ⟨h3, h4⟩
  · exact Or.inl (lt_trans h1 h3)
  · exact Or.inl (h3 ▸ h1)
  · exact Or.inl (h1 ▸ h3)
  · exact Or.inr ⟨h1.trans h3, le_trans h2 h4⟩

theorem keyLe_of_not_keyLt (a b : PyStr × ℕ) (h : ¬ keyLt a b) : keyLe b a := by
  unfold keyLt at h
  push_neg at h
  rcases lt_trichotomy a.1 b.1 with h1 | h1 | h1
  · exact absurd h1 (not_lt.mpr h.1)
  · exact Or.inr ⟨h1.symm, h.2 h1⟩
  · exact Or.inl h1

theorem pickBest_cons (f g : Fact) (gs : List Fact) :
    pickBest f (g :: gs) = pickBest (if keyLt (sort_key f) (sort_key g) then g else f) gs := rfl

theorem pickBest_mem (f : Fact) (fs : List Fact) : pickBest f fs ∈ f :: fs := by
  induction fs generalizing f with
  | nil => simp [pickBest]
  | cons g gs ih =>
    rw [pickBest_cons]
    by_cases hk : keyLt (sort_key f) (sort_key g)
    · rw [if_pos hk]
      exact List.mem_cons_of_mem f (ih g)
    · rw [if_neg hk]
      rcases List.mem_cons.mp (ih f) with h | h
      · exact List.mem_cons.mpr (Or.inl h)
      · exact List.mem_cons_of_mem f (List.mem_cons_of_mem g h)

theorem pickBest_ge (f : Fact) (fs : List Fact) :
    ∀ g ∈ f :: fs, keyLe (sort_key g) (sort_key (pickBest f fs)) := by
  induction fs generalizing f with
  | nil =>
    intro g hg
    have hgf : g = f := List.mem_singleton.mp hg
    rw [hgf]
    exact keyLe_refl _
  | cons x xs ih =>
    intro g hg
    rw [pickBest_cons]
    by_cases hk : keyLt (sort_key f) (sort_key x)
    · rw [if_pos hk]
      rcases List.mem_cons.mp hg with hgf | hg2
      · rw [hgf]
        exact keyLe_trans _ _ _ (keyLt_keyLe _ _ hk) (ih x x (List.mem_cons_self _ _))
      · exact ih x g hg2
    · rw [if_neg hk]
      rcases List.mem_cons.mp hg with hgf | hg2
      · rw [hgf]
        exact ih f f (List.mem_cons_self _ _)
      · rcases List.mem_cons.mp hg2 with hgx | hg3
        · rw [hgx]
          exact keyLe_trans _ _ _ (keyLe_of_not_keyLt _ _ hk) (ih f f (List.mem_cons_self _ _))
        · exact ih f g (List.mem_cons_of_mem f hg3)

theorem lookup_map_entry {β : Type} (g : PyStr × List PyStr → β) :
    ∀ (l : List (PyStr × List PyStr)) (k : PyStr) (a : List PyStr),
      (l.map Prod.fst).Nodup → (k, a) ∈ l →
      (l.map (fun kv => (kv.1, g kv))).lookup k = some (g (k, a)) := by
  intro l
  induction l with
  | nil => intro k a _ hmem; exact absurd hmem (List.not_mem_nil _)
  | cons kv rest ih =>
    intro k a hnd hmem
    rcases List.mem_cons.mp hmem with rfl | hmem2
    · simp [List.lookup]
    · have hne : k ≠ kv.1 := by
        intro he
        have : kv.1 ∈ rest.map Prod.fst :=
          he ▸ List.mem_map_of_mem Prod.fst hmem2
        exact (List.nodup_cons.mp (by simpa using hnd)).1 this
      have hbeq : (k == kv.1) = false := beq_eq_false_iff_ne.mpr hne
      simp only [List.map_cons, List.lookup, hbeq]
      exact ih k a (List.nodup_cons.mp (by simpa using hnd)).2 hmem2

theorem foldlMax_cons (x y : PyStr) (ys : List PyStr) :
    (y :: ys).foldl (fun best g => if best < g then g else best) x
      = ys.foldl (fun best g => if best < g then g else best) (if x < y then y else x) := rfl

theorem foldlMax_mem (x : PyStr) (xs : List PyStr) :
    xs.foldl (fun best g => if best < g then g else best) x ∈ x :: xs := by
  induction xs generalizing x with
  | nil => simp
  | cons y ys ih =>
    rw [foldlMax_cons]
    by_cases hk : x < y
    · rw [if_pos hk]
      exact List.mem_cons_of_mem x (ih y)
    · rw [if_neg hk]
      rcases List.mem_cons.mp (ih x) with h | h
      · exact List.mem_cons.mpr (Or.inl h)
      · exact List.mem_cons_of_mem x (List.mem_cons_of_mem y h)

theorem foldlMax_ge (x : PyStr) (xs : List PyStr) :
    ∀ q ∈ x :: xs, q ≤ xs.foldl (fun best g => if best < g then g else best) x := by
  induction xs generalizing x with
  | nil =>
    intro q hq
    have h := List.mem_singleton.mp hq
    rw [h]
    exact le_refl _
  | cons y ys ih =>
    intro q hq
    rw [foldlMax_cons]
    by_cases hk : x < y
    · rw [if_pos hk]
      rcases List.mem_cons.mp hq with hqx | hq2
      · rw [hqx]
        exact le_trans (le_of_lt hk) (ih y y (List.mem_cons_self _ _))
      · exact ih y q hq2
    · rw [if_neg hk]
      rcases List.mem_cons.mp hq with hqx | hq2
      · rw [hqx]
        exact ih x x (List.mem_cons_self _ _)
      · rcases List.mem_cons.mp hq2 with hqy | hq3
        · rw [hqy]
          exact le_trans (not_lt.mp hk) (ih x x (List.mem_cons_self _ _))
        · exact ih x q (List.mem_cons_of_mem x hq3)

theorem pyMaxStr_eq_none_iff (l : List PyStr) : pyMaxStr l = none ↔ l = [] := by
  cases l <;> simp [pyMaxStr]

theorem pyMaxStr_spec (l : List PyStr) (p : PyStr) (h : pyMaxStr l = some p) :
    p ∈ l ∧ ∀ q ∈ l, q ≤ p := by
  cases l with
  | nil => exact absurd h (by simp [pyMaxStr])
  | cons x xs =>
    have hp : p = xs.foldl (fun best g => if best < g then g else best) x := by
      simpa [pyMaxStr] using h.symm
    exact ⟨hp ▸ foldlMax_mem x xs, fun q hq => hp ▸ foldlMax_ge x xs q hq⟩


theorem join_group_insert {α : Type} (gs : List (PyStr × List α)) (k : PyStr) (d : α) :
    (((group_insert gs k d).map Prod.snd).flatten).Perm ((gs.map Prod.snd).flatten ++ [d]) := by
  induction gs with
  | nil => simp [group_insert]
  | cons g rest ih =>
    by_cases hk : g.1 = k
    · simp only [group_insert, if_pos hk, List.map_cons, List.flatten_cons, List.append_assoc]
      exact List.Perm.append_left g.2 List.perm_append_comm
    · simp only [group_insert, if_neg hk, List.map_cons, List.flatten_cons, List.append_assoc]
      exact List.Perm.append_left g.2 ih

theorem fan_in_concat {α ε : Type} (dateOf : α → PyStr) (run : α → Except ε α)
    (order : List α) (x : α) :
    fan_in dateOf run (order ++ [x]) =
      group_insert (fan_in dateOf run order) (dateOf (process run x)) (process run x) := by
  simp [fan_in, List.foldl_append]

theorem join_fan_in {α ε : Type} (dateOf : α → PyStr) (run : α → Except ε α)
    (order : List α) :
    (((fan_in dateOf run order).map Prod.snd).flatten).Perm (order.map (process run)) := by
  induction order using List.reverseRecOn with
  | nil => simp [fan_in]
  | append_singleton order x ih =>
    rw [fan_in_concat]
    refine (join_group_insert _ _ _).trans ?_
    rw [List.map_append]
    exact ih.append (List.Perm.refl [process run x])

theorem filter_map_update_other {α : Type} (s : List (SRow α)) (c : α) (i j : PyStr)
    (hij : j ≠ i) :
    ((s.map (fun x => if x.doc_id == some j then { doc_id := x.doc_id, cols := c } else x)).filter
        (fun x => x.doc_id == some i)) = s.filter (fun x => x.doc_id == some i) := by
  induction s with
  | nil => rfl
  | cons x xs ih =>
    rw [List.map_cons]
    by_cases hb : (x.doc_id == some j) = true
    · rw [if_pos hb]
      have hpi : (x.doc_id == some i) = false := by
        refine beq_eq_false_iff_ne.mpr ?_
        rw [beq_iff_eq.mp hb]
        exact fun he => hij (Option.some_injective _ he)
      rw [List.filter_cons, List.filter_cons]
      simp only [hpi, Bool.false_eq_true, if_false]
      exact ih
    · rw [if_neg hb]
      rw [List.filter_cons, List.filter_cons]
      by_cases hpi : (x.doc_id == some i) = true
      · simp only [hpi, if_true]
        rw [ih]
      · simp only [hpi, if_false]
        exact ih

theorem filter_upsert_other {α : Type} (s : List (SRow α)) (r : SRow α) (i : PyStr)
    (h : r.doc_id ≠ some i) :
    (upsert_row s r).filter (fun x => x.doc_id == some i) =
      s.filter (fun x => x.doc_id == some i) := by
  have hp : (r.doc_id == some i) = false := beq_eq_false_iff_ne.mpr h
  rcases hd : r.doc_id with _ | j
  · simp only [upsert_row, hd, List.filter_append, List.filter_cons, List.filter_nil]
    simp only [hd] at hp
    simp [hp]
  · have hij : j ≠ i := by
      intro he
      exact h (by rw [hd, he])
    simp only [upsert_row, hd]
    by_cases ha : (s.any (fun x => x.doc_id == some j)) = true
    · rw [if_pos ha]
      exact filter_map_update_other s r.cols i j hij
    · rw [if_neg ha]
      rw [List.filter_append, List.filter_cons]
      simp [h]

theorem filter_map_update_none {α : Type} (xs : List (SRow α)) (c : α) (i : PyStr)
    (h : ∀ y ∈ xs, y.doc_id ≠ some i) :
    ((xs.map (fun x => if x.doc_id == some i then { doc_id := x.doc_id, cols := c } else x)).filter
        (fun x => x.doc_id == some i)) = [] := by
  induction xs with
  | nil => rfl
  | cons x rest ih =>
    have hb : (x.doc_id == some i) = false :=
      beq_eq_false_iff_ne.mpr (h x (List.mem_cons_self _ _))
    rw [List.map_cons, if_neg (by rw [hb]; exact Bool.false_ne_true), List.filter_cons]
    simp only [hb, Bool.false_eq_true, if_false]
    exact ih (fun y hy => h y (List.mem_cons_of_mem x hy))

theorem nodup_tail_filterMap {α : Type} (x : SRow α) (xs : List (SRow α))
    (h : (((x :: xs).filterMap SRow.doc_id)).Nodup) : ((xs.filterMap SRow.doc_id)).Nodup := by
  rcases hd : x.doc_id with _ | d
  · simpa [List.filterMap_cons, hd] using h
  · rw [List.filterMap_cons, hd] at h
    exact (List.nodup_cons.mp h).2

theorem upsert_cons_of_ne {α : Type} (x : SRow α) (xs : List (SRow α)) (r : SRow α) (i : PyStr)
    (hr : r.doc_id = some i) (hx : (x.doc_id == some i) = false) :
    upsert_row (x :: xs) r = x :: upsert_row xs r := by
  simp only [upsert_row, hr]
  by_cases ha : (xs.any (fun y => y.doc_id == some i)) = true
  · rw [if_pos (by simp [List.any_cons, hx, ha]), if_pos ha, List.map_cons,
      if_neg (by rw [hx]; exact Bool.false_ne_true)]
  · rw [if_neg (by simp [List.any_cons, hx, ha]), if_neg ha]
    rfl

theorem filter_upsert_self {α : Type} (s : List (SRow α)) (r : SRow α) (i : PyStr)
    (hr : r.doc_id = some i) (hu : ((s.filterMap SRow.doc_id)).Nodup) :
    (upsert_row s r).filter (fun x => x.doc_id == some i) = [{ doc_id := some i, cols := r.cols }] := by
  induction s with
  | nil =>
    obtain ⟨d, c⟩ := r
    simp only at hr
    subst hr
    rw [show upsert_row ([] : List (SRow α)) ⟨some i, c⟩ = [⟨some i, c⟩] from rfl,
      List.filter_cons]
    simp
  | cons x xs ih =>
    by_cases hb : (x.doc_id == some i) = true
    · have hx : x.doc_id = some i := beq_iff_eq.mp hb
      have hany : ((x :: xs).any (fun y => y.doc_id == some i)) = true := by
        simp [List.any_cons, hb]
      simp only [upsert_row, hr, if_pos hany, List.map_cons, if_pos hb]
      have hxs : ∀ y ∈ xs, y.doc_id ≠ some i := by
        intro y hy he
        rw [List.filterMap_cons, hx] at hu
        rcases List.nodup_cons.mp hu with ⟨hni, _⟩
        exact hni (List.mem_filterMap.mpr ⟨y, hy, he⟩)
      rw [List.filter_cons]
      simp only [hb, if_true, hx]
      rw [filter_map_update_none xs r.cols i hxs]
      simp
    · have hbf : (x.doc_id == some i) = false := by
        cases hq : (x.doc_id == some i)
        · rfl
        · exact absurd hq hb
      rw [upsert_cons_of_ne x xs r i hr hbf, List.filter_cons]
      simp only [hbf, Bool.false_eq_true, if_false]
      exact ih (nodup_tail_filterMap x xs hu)

theorem filterMap_map_update {α : Type} (s : List (SRow α)) (c : α) (j : PyStr) :
    ((s.map (fun x => if x.doc_id == some j then { doc_id := x.doc_id, cols := c } else x)).filterMap
        SRow.doc_id) = s.filterMap SRow.doc_id := by
  induction s with
  | nil => rfl
  | cons x xs ih =>
    rw [List.map_cons]
    by_cases hb : (x.doc_id == some j) = true
    · rw [if_pos hb, List.filterMap_cons, List.filterMap_cons]
      cases hd : x.doc_id with
      | none => simpa [hd] using ih
      | some d =>
        simp only [hd]
        rw [ih]
    · rw [if_neg hb, List.filterMap_cons, List.filterMap_cons]
      cases hd : x.doc_id with
      | none => simpa [hd] using ih
      | some d =>
        simp only [hd]
        rw [ih]

theorem upsert_nodup {α : Type} (s : List (SRow α)) (r : SRow α)
    (hu : ((s.filterMap SRow.doc_id)).Nodup) :
    (((upsert_row s r).filterMap SRow.doc_id)).Nodup := by
  rcases hd : r.doc_id with _ | i
  · simp only [upsert_row, hd, List.filterMap_append, List.filterMap_cons]
    simpa [hd] using hu
  · simp only [upsert_row, hd]
    by_cases ha : (s.any (fun x => x.doc_id == some i)) = true
    · rw [if_pos ha, filterMap_map_update]
      exact hu
    · rw [if_neg ha]
      have hni : i ∉ s.filterMap SRow.doc_id := by
        intro hmem
        rcases List.mem_filterMap.mp hmem with ⟨y, hy, hyd⟩
        have hall : ∀ x ∈ s, ¬ x.doc_id = some i := by simpa using ha
        exact hall y hy hyd
      rw [List.filterMap_append, List.filterMap_cons, hd]
      simp only [List.filterMap_nil]
      exact List.Nodup.append hu (List.nodup_singleton i) (by simpa using hni)

theorem save_nodup {α : Type} (rows : List (SRow α)) (store : List (SRow α))
    (hu : ((store.filterMap SRow.doc_id)).Nodup) :
    (((save_documents store rows).filterMap SRow.doc_id)).Nodup := by
  induction rows generalizing store with
  | nil => exact hu
  | cons r rest ih => exact ih (upsert_row store r) (upsert_nodup store r hu)

theorem save_filter_find {α : Type} (rows : List (SRow α)) (store : List (SRow α)) (i : PyStr)
    (hu : ((store.filterMap SRow.doc_id)).Nodup) (r : SRow α)
    (hf : rows.reverse.find? (fun x => x.doc_id == some i) = some r) :
    (save_documents store rows).filter (fun x => x.doc_id == some i) =
      [{ doc_id := some i, cols := r.cols }] := by
  induction rows using List.reverseRecOn with
  | nil => simp at hf
  | append_singleton rest y ih =>
    have hsave : save_documents store (rest ++ [y]) = upsert_row (save_documents store rest) y := by
      simp [save_documents, List.foldl_append]
    rw [List.reverse_append, List.reverse_cons, List.reverse_nil, List.nil_append,
      List.singleton_append] at hf
    by_cases hy : (y.doc_id == some i) = true
    · rw [@List.find?_cons_of_pos _ (fun x => x.doc_id == some i) y rest.reverse hy] at hf
      have hyr : y = r := by simpa using hf
      rw [hsave, ← hyr]
      exact filter_upsert_self _ y i (beq_iff_eq.mp hy) (save_nodup rest store hu)
    · rw [@List.find?_cons_of_neg _ (fun x => x.doc_id == some i) y rest.reverse hy] at hf
      rw [hsave, filter_upsert_other _ y i (fun he => hy (beq_iff_eq.mpr he))]
      exact ih hf

theorem insert_ignore_filter {α : Type} (s : List (SRow α)) (r : SRow α) (i : PyStr) (c : α)
    (h : s.filter (fun x => x.doc_id == some i) = [{ doc_id := some i, cols := c }]) :
    (insert_or_ignore_row s r).filter (fun x => x.doc_id == some i) =
      [{ doc_id := some i, cols := c }] := by
  rcases hd : r.doc_id with _ | j
  · have hp : (r.doc_id == some i) = false := by
      rw [hd]
      rfl
    simp only [insert_or_ignore_row, hd, List.filter_append, List.filter_cons, List.filter_nil]
    simp only [hd] at hp
    simp [hp, h]
  · simp only [insert_or_ignore_row, hd]
    by_cases ha : (s.any (fun x => x.doc_id == some j)) = true
    · rw [if_pos ha]
      exact h
    · rw [if_neg ha]
      have hji : j ≠ i := by
        intro he
        subst he
        have hempty : s.filter (fun x => x.doc_id == some j) = [] := by
          refine List.filter_eq_nil_iff.mpr (fun a ha2 hpa => ?_)
          have hall : ∀ x ∈ s, ¬ x.doc_id = some j := by simpa using ha
          exact hall a ha2 (beq_iff_eq.mp hpa)
        rw [hempty] at h
        exact List.noConfusion h
      have hp : (r.doc_id == some i) = false := by
        rw [hd]
        exact beq_eq_false_iff_ne.mpr (fun he => hji (Option.some_injective _ he))
      rw [List.filter_append, List.filter_cons]
      simp only [hp, Bool.false_eq_true, if_false, List.filter_nil, List.append_nil]
      exact h

theorem save_skip_filter {α : Type} (rows : List (SRow α)) (s : List (SRow α)) (i : PyStr) (c : α)
    (h : s.filter (fun x => x.doc_id == some i) = [{ doc_id := some i, cols := c }]) :
    (save_documents_skip s rows).filter (fun x => x.doc_id == some i) =
      [{ doc_id := some i, cols := c }] := by
  induction rows generalizing s with
  | nil => exact h
  | cons r rest ih => exact ih (insert_or_ignore_row s r) (insert_ignore_filter s r i c h)


theorem abs_round_half_even_sub_le (x : ℚ) : |((round_half_even x : ℤ) : ℚ) - x| ≤ 1 / 2 := by
  unfold round_half_even
  split_ifs with h1 h2 h3
  · rw [abs_sub_comm, Int.self_sub_floor, abs_of_nonneg (Int.fract_nonneg x)]
    exact le_of_lt h1
  · have he : ((⌊x⌋ + 1 : ℤ) : ℚ) - x = 1 - Int.fract x := by
      rw [Int.fract]
      push_cast
      ring
    rw [he, abs_of_nonneg (by linarith [Int.fract_lt_one x])]
    linarith
  · have hf : Int.fract x = 1 / 2 := le_antisymm (not_lt.mp h2) (not_lt.mp h1)
    rw [abs_sub_comm, Int.self_sub_floor, abs_of_nonneg (Int.fract_nonneg x), hf]
  · have hf : Int.fract x = 1 / 2 := le_antisymm (not_lt.mp h2) (not_lt.mp h1)
    have he : ((⌊x⌋ + 1 : ℤ) : ℚ) - x = 1 - Int.fract x := by
      rw [Int.fract]
      push_cast
      ring
    rw [he, hf]
    rw [show (1 : ℚ) - 1 / 2 = 1 / 2 by norm_num]
    rw [abs_of_nonneg (by norm_num : (0 : ℚ) ≤ 1 / 2)]

theorem round4_abs_sub_le (q : ℚ) : |round4 q - q| ≤ 1 / 20000 := by
  have h := abs_round_half_even_sub_le (q * 10000)
  unfold round4
  have he : ((round_half_even (q * 10000) : ℤ) : ℚ) / 10000 - q
      = (((round_half_even (q * 10000) : ℤ) : ℚ) - q * 10000) / 10000 := by ring
  rw [he, abs_div, abs_of_pos (show (0 : ℚ) < 10000 by norm_num)]
  linarith

theorem trimChars_of_ends (a b : Char) (h1 : a.isWhitespace = false)
    (h2 : b.isWhitespace = false) (l : PyStr) : trimChars (a :: l ++ [b]) = a :: l ++ [b] := by
  unfold trimChars
  rw [List.cons_append]
  have d1 : (a :: (l ++ [b])).dropWhile Char.isWhitespace = a :: (l ++ [b]) := by
    rw [List.dropWhile_cons, h1]
    simp
  rw [d1]
  have d2 : (a :: (l ++ [b])).reverse = b :: (l.reverse ++ [a]) := by
    simp [List.reverse_cons, List.reverse_append]
  rw [d2]
  have d3 : (b :: (l.reverse ++ [a])).dropWhile Char.isWhitespace = b :: (l.reverse ++ [a]) := by
    rw [List.dropWhile_cons, h2]
    simp
  rw [d3]
  simp [List.reverse_cons, List.reverse_append]


/-- C5: the Numeric Text Normalizer trims whitespace, returns null on empty or
null input, strips a full parenthesis wrapper and negates, strips
thousands-separator commas, parses the remainder as a base-10 number, and
returns null (it never raises — it is a total function) on parse failure; in
particular "(1,234)" gives -1234.0 and "1,234.5" gives 1234.5. -/
theorem C5_parse_number_spec :
    parse_number none = none
    ∧ (∀ cs : PyStr, trimChars cs = [] → parse_number (some cs) = none)
    ∧ parse_number (some "(1,234)".data) = some (-1234)
    ∧ parse_number (some "1,234.5".data) = some (1234.5 : ℚ)
    ∧ (∀ cs : PyStr,
        parse_number (some ('(' :: cs ++ [')'])) =
          Option.map (fun q => -q) (py_float_text (cs.filter (fun c => c != ','))))
    ∧ (∀ cs : PyStr,
        (((trimChars cs).head? == some '(') && ((trimChars cs).getLast? == some ')')) = false →
          parse_number (some cs) = py_float_text ((trimChars cs).filter (fun c => c != ','))) := by
  refine ⟨rfl, ?_, by decide, ?_, ?_, ?_⟩
  · intro cs h
    simp [parse_number, h]
  · have h : parse_number (some "1,234.5".data)
        = some (((1234 : ℕ) : ℚ) + ((5 : ℕ) : ℚ) / (10 : ℚ) ^ (1 : ℕ)) := rfl
    rw [h]
    norm_num
  · intro cs
    have htrim : trimChars ('(' :: cs ++ [')']) = '(' :: cs ++ [')'] :=
      trimChars_of_ends '(' ')' rfl rfl cs
    have hlast : ('(' :: (cs ++ [')'])).getLast? = some ')' := by
      rw [← List.cons_append]
      exact List.getLast?_concat _
    simp only [parse_number, List.cons_append] at htrim ⊢
    simp only [htrim]
    rw [if_neg (List.cons_ne_nil _ _)]
    simp only [List.head?_cons, hlast, List.drop_succ_cons, List.drop_zero,
      List.dropLast_concat]
    rw [show ((some '(' == some '(') && (some ')' == some ')')) = true from rfl]
    simp only [if_true]
    cases hp : py_float_text (cs.filter (fun c => c != ',')) <;> simp [hp]
  · intro cs h
    cases h0 : trimChars cs with
    | nil =>
      simp only [parse_number, h0]
      rfl
    | cons a l =>
      rw [h0] at h
      simp only [parse_number, h0]
      rw [if_neg (List.cons_ne_nil a l), h]
      simp only [Bool.false_eq_true, if_false]
      cases hp : py_float_text ((a :: l).filter (fun c => c != ',')) <;> simp [hp]

/-- C5 witness: the theorem applied at concrete inputs (a whitespace-only
text, a parenthesised text, and an unparseable text). -/
theorem C5_parse_number_witness :
    parse_number (some "   ".data) = none
    ∧ parse_number (some ('(' :: "12".data ++ [')'])) =
        Option.map (fun q => -q) (py_float_text ("12".data.filter (fun c => c != ',')))
    ∧ parse_number (some "12x".data) =
        py_float_text ((trimChars "12x".data).filter (fun c => c != ',')) :=
  ⟨C5_parse_number_spec.2.1 "   ".data (by decide),
    C5_parse_number_spec.2.2.2.2.1 "12".data,
    C5_parse_number_spec.2.2.2.2.2 "12x".data (by decide)⟩

/-- C6: safe_div returns null when either operand is null or the denominator
is zero, and otherwise returns the exact quotient; being a total Lean
function, it cannot raise. -/
theorem C6_safe_div_spec (x y : Option ℚ) :
    (safe_div x y = none ↔ x = none ∨ y = none ∨ y = some 0)
    ∧ ∀ a b : ℚ, b ≠ 0 → safe_div (some a) (some b) = some (a / b) := by
  constructor
  · constructor
    · intro h
      match x, y with
      | none, _ => exact Or.inl rfl
      | some a, none => exact Or.inr (Or.inl rfl)
      | some a, some b =>
        by_cases hb : b = 0
        · exact Or.inr (Or.inr (by rw [hb]))
        · simp [safe_div, hb] at h
    · intro h
      rcases h with rfl | rfl | rfl
      · cases y <;> rfl
      · cases x <;> rfl
      · cases x <;> simp [safe_div]
  · intro a b hb
    simp [safe_div, hb]

/-- C6 witness: zero denominator, null numerator, and an exact quotient. -/
theorem C6_safe_div_witness :
    safe_div (some 6) (some 0) = none ∧ safe_div none (some 5) = none
    ∧ safe_div (some 6) (some 2) = some (6 / 2) :=
  ⟨(C6_safe_div_spec (some 6) (some 0)).1.mpr (Or.inr (Or.inr rfl)),
    (C6_safe_div_spec none (some 5)).1.mpr (Or.inl rfl),
    (C6_safe_div_spec (some 6) (some 2)).2 6 2 (by norm_num)⟩


/-- C2: with at least two matching facts, the Metric Resolver selects a
matching fact whose `(periodEnd, consolidatedAsInt)` pair is lexicographically
greatest: a later period end wins regardless of consolidation, and within the
same period end a consolidated fact beats a non-consolidated one (`keyLe` is
exactly that lexicographic order on `sort_key` pairs). -/
theorem C2_tie_break (facts : List Fact) (candidates : List PyStr)
    (h2 : 2 ≤ (facts.filter
        (fun g => (candidates.map lowerStr).contains (lowerStr g.name))).length) :
    ∃ f, select_metric_value facts candidates = some f
      ∧ f ∈ facts.filter (fun g => (candidates.map lowerStr).contains (lowerStr g.name))
      ∧ ∀ g ∈ facts.filter (fun g => (candidates.map lowerStr).contains (lowerStr g.name)),
          keyLe (sort_key g) (sort_key f) := by
  have hne : facts.isEmpty = false := by
    cases hf : facts with
    | nil =>
      rw [hf] at h2
      simp at h2
    | cons a l => rfl
  cases hm : facts.filter (fun g => (candidates.map lowerStr).contains (lowerStr g.name)) with
  | nil =>
    rw [hm] at h2
    simp at h2
  | cons f fs =>
    refine ⟨pickBest f fs, ?_, ?_, ?_⟩
    · simp only [select_metric_value, hne, Bool.false_eq_true, if_false, hm]
    · exact pickBest_mem f fs
    · exact pickBest_ge f fs

/-- C2 witness: the specification's own scenario — two `netsales` facts with
the same period end `2024-03-31`, values 100 (non-consolidated) and 120
(consolidated); additionally checked concretely: the consolidated fact with
value 120 is the selected one. -/
theorem C2_tie_break_witness :
    select_metric_value
        [⟨"netsales".data, 100, some "c1".data, none, none, some "2024-03-31".data, false⟩,
          ⟨"netsales".data, 120, some "c2".data, none, none, some "2024-03-31".data, true⟩]
        ["netsales".data]
      = some ⟨"netsales".data, 120, some "c2".data, none, none, some "2024-03-31".data, true⟩
    ∧ ∃ f, select_metric_value
        [⟨"netsales".data, 100, some "c1".data, none, none, some "2024-03-31".data, false⟩,
          ⟨"netsales".data, 120, some "c2".data, none, none, some "2024-03-31".data, true⟩]
        ["netsales".data] = some f
      ∧ f ∈ List.filter (fun g => ((["netsales".data].map lowerStr).contains (lowerStr g.name)))
          [⟨"netsales".data, 100, some "c1".data, none, none, some "2024-03-31".data, false⟩,
            ⟨"netsales".data, 120, some "c2".data, none, none, some "2024-03-31".data, true⟩]
      ∧ ∀ g ∈ List.filter (fun g => ((["netsales".data].map lowerStr).contains (lowerStr g.name)))
          [⟨"netsales".data, 100, some "c1".data, none, none, some "2024-03-31".data, false⟩,
            ⟨"netsales".data, 120, some "c2".data, none, none, some "2024-03-31".data, true⟩],
          keyLe (sort_key g) (sort_key f) :=
  ⟨by decide, C2_tie_break _ _ (by decide)⟩

/-- C7 (amended): zero matching facts resolve a metric key to null; a single
matching fact is the selected fact and its value is stored unchanged — except
for the `employee_count` key, whose resolved value is coerced to an integer
(truncated toward zero). -/
theorem C7_resolver_matches (facts : List Fact) (key : PyStr) (aliases : List PyStr)
    (hmem : (key, aliases) ∈ COMMON_METRICS) :
    ((facts.filter (fun g => (aliases.map lowerStr).contains (lowerStr g.name))) = [] →
      select_metric_value facts aliases = none
      ∧ (extract_metrics_from_xbrl facts).1.lookup key = some none)
    ∧ (∀ f, (facts.filter (fun g => (aliases.map lowerStr).contains (lowerStr g.name))) = [f] →
      select_metric_value facts aliases = some f
      ∧ (extract_metrics_from_xbrl facts).1.lookup key =
          some (some (if key = "employee_count".data
            then ((int_of_float f.value : ℤ) : ℚ) else f.value))) := by
  have hnd : (COMMON_METRICS.map Prod.fst).Nodup := by decide
  constructor
  · intro hf
    have hsel : select_metric_value facts aliases = none := by
      cases hfe : facts.isEmpty
      · simp only [select_metric_value, hfe, Bool.false_eq_true, if_false, hf]
      · simp [select_metric_value, hfe]
    refine ⟨hsel, ?_⟩
    rw [show (extract_metrics_from_xbrl facts).1
        = COMMON_METRICS.map (fun kv => (kv.1, (metric_entry facts kv).1)) from rfl]
    rw [lookup_map_entry (fun kv => (metric_entry facts kv).1) COMMON_METRICS key aliases hnd hmem]
    simp [metric_entry, hsel]
  · intro f hf
    have hne : facts.isEmpty = false := by
      cases hfl : facts with
      | nil =>
        rw [hfl] at hf
        simp at hf
      | cons a l => rfl
    have hsel : select_metric_value facts aliases = some f := by
      simp only [select_metric_value, hne, Bool.false_eq_true, if_false, hf]
      rfl
    refine ⟨hsel, ?_⟩
    rw [show (extract_metrics_from_xbrl facts).1
        = COMMON_METRICS.map (fun kv => (kv.1, (metric_entry facts kv).1)) from rfl]
    rw [lookup_map_entry (fun kv => (metric_entry facts kv).1) COMMON_METRICS key aliases hnd hmem]
    simp [metric_entry, hsel]

/-- C7 counterexample: a single matching `numberofemployees` fact with value
10.5 resolves `employee_count` to 10 — the fact's value is not returned
unchanged, refuting the claim as stated for the employee-count key. -/
theorem C7_counterexample :
    (extract_metrics_from_xbrl
        [⟨"numberofemployees".data, (21 : ℚ) / 2, some "c1".data, none, none,
          some "2024-03-31".data, true⟩]).1.lookup "employee_count".data
      = some (some ((10 : ℤ) : ℚ))
    ∧ ((21 : ℚ) / 2) ≠ ((10 : ℤ) : ℚ) := by
  constructor
  · rw [show (extract_metrics_from_xbrl
        [⟨"numberofemployees".data, (21 : ℚ) / 2, some "c1".data, none, none,
          some "2024-03-31".data, true⟩]).1
      = COMMON_METRICS.map (fun kv => (kv.1,
          (metric_entry [⟨"numberofemployees".data, (21 : ℚ) / 2, some "c1".data, none, none,
            some "2024-03-31".data, true⟩] kv).1)) from rfl]
    rw [lookup_map_entry _ COMMON_METRICS "employee_count".data
      ["numberofemployees".data, "numberofemployeesaverage".data] (by decide) (by decide)]
    have hsel : select_metric_value
        [⟨"numberofemployees".data, (21 : ℚ) / 2, some "c1".data, none, none,
          some "2024-03-31".data, true⟩]
        ["numberofemployees".data, "numberofemployeesaverage".data]
      = some ⟨"numberofemployees".data, (21 : ℚ) / 2, some "c1".data, none, none,
          some "2024-03-31".data, true⟩ := rfl
    have hint : int_of_float ((21 : ℚ) / 2) = 10 := by
      unfold int_of_float
      rw [if_pos (by norm_num : (0 : ℚ) ≤ 21 / 2)]
      rw [show ⌊(21 : ℚ) / 2⌋ = 10 from by norm_num [Int.floor_eq_iff]]
    simp [metric_entry, hsel, hint]
  · push_cast
    norm_num

/-- C7 witness: for the `sales_amount` key, zero matches resolve to null, and
a single matching `netsales` fact is selected with its value stored via the
non-employee branch. -/
theorem C7_resolver_witness :
    (select_metric_value [] ["netsales".data, "netsalessummaryofbusinessresults".data,
        "revenue".data, "revenuesummaryofbusinessresults".data, "operatingrevenue".data,
        "operatingrevenuesummaryofbusinessresults".data] = none
      ∧ (extract_metrics_from_xbrl ([] : List Fact)).1.lookup "sales_amount".data = some none)
    ∧ (select_metric_value
          [⟨"netsales".data, 100, some "c1".data, none, none, some "2024-03-31".data, false⟩]
          ["netsales".data, "netsalessummaryofbusinessresults".data,
            "revenue".data, "revenuesummaryofbusinessresults".data, "operatingrevenue".data,
            "operatingrevenuesummaryofbusinessresults".data]
        = some ⟨"netsales".data, 100, some "c1".data, none, none, some "2024-03-31".data, false⟩
      ∧ (extract_metrics_from_xbrl
            [⟨"netsales".data, 100, some "c1".data, none, none,
              some "2024-03-31".data, false⟩]).1.lookup "sales_amount".data =
          some (some (if "sales_amount".data = "employee_count".data
            then ((int_of_float (⟨"netsales".data, 100, some "c1".data, none, none,
                some "2024-03-31".data, false⟩ : Fact).value : ℤ) : ℚ)
            else (⟨"netsales".data, 100, some "c1".data, none, none,
                some "2024-03-31".data, false⟩ : Fact).value))) :=
  ⟨(C7_resolver_matches [] "sales_amount".data _ (by decide)).1 (by decide),
    (C7_resolver_matches _ "sales_amount".data _ (by decide)).2 _ (by decide)⟩

/-- C4: the metrics map contains exactly the canonical keys in table order
(null when a key's resolver found no fact), and the overall period end is the
maximum of the period ends contributed by the resolved metrics (null iff no
resolved metric contributed one). -/
theorem C4_metricset_invariants (facts : List Fact) :
    ((extract_metrics_from_xbrl facts).1.map Prod.fst) = COMMON_METRICS.map Prod.fst
    ∧ (∀ key aliases, (key, aliases) ∈ COMMON_METRICS →
        select_metric_value facts aliases = none →
        (extract_metrics_from_xbrl facts).1.lookup key = some none)
    ∧ ((extract_metrics_from_xbrl facts).2 = none ↔ resolved_period_ends facts = [])
    ∧ (∀ p, (extract_metrics_from_xbrl facts).2 = some p →
        p ∈ resolved_period_ends facts ∧ ∀ q ∈ resolved_period_ends facts, q ≤ p) := by
  refine ⟨?_, ?_, ?_, ?_⟩
  · rw [show (extract_metrics_from_xbrl facts).1
        = COMMON_METRICS.map (fun kv => (kv.1, (metric_entry facts kv).1)) from rfl]
    rw [List.map_map]
    rfl
  · intro key aliases hmem hsel
    rw [show (extract_metrics_from_xbrl facts).1
        = COMMON_METRICS.map (fun kv => (kv.1, (metric_entry facts kv).1)) from rfl]
    rw [lookup_map_entry (fun kv => (metric_entry facts kv).1) COMMON_METRICS key aliases
      (by decide) hmem]
    simp [metric_entry, hsel]
  · exact pyMaxStr_eq_none_iff _
  · intro p hp
    exact pyMaxStr_spec _ p hp

/-- C4 witness: with one netsales fact, an unmatched key stores null and the
overall period end is the maximum resolved period end. -/
theorem C4_metricset_witness :
    (extract_metrics_from_xbrl
        [⟨"netsales".data, 100, some "c1".data, none, none,
          some "2024-03-31".data, false⟩]).1.lookup "total_assets".data = some none
    ∧ ("2024-03-31".data ∈ resolved_period_ends
          [⟨"netsales".data, 100, some "c1".data, none, none, some "2024-03-31".data, false⟩]
        ∧ ∀ q ∈ resolved_period_ends
            [⟨"netsales".data, 100, some "c1".data, none, none, some "2024-03-31".data, false⟩],
            q ≤ "2024-03-31".data) :=
  ⟨(C4_metricset_invariants _).2.1 "total_assets".data ["assets".data] (by decide) (by decide),
    (C4_metricset_invariants _).2.2.2 "2024-03-31".data (by decide)⟩


/-- C8: a document whose `xbrlFlag` is "0" never triggers an archive fetch
(the fetch flag of the model is false) and yields a MetricSet in which every
canonical metric is null. -/
theorem C8_no_xbrl_no_fetch (d : EDoc) (fetched : Option (List Fact))
    (h : d.xbrlFlag = some "0".data) :
    (enrich_document fetched d).2 = false
    ∧ ∀ kv ∈ COMMON_METRICS, (enrich_document fetched d).1.1.lookup kv.1 = some none := by
  have hflag : xbrl_flag_of d = "0".data := by
    unfold xbrl_flag_of pyOr
    rw [h]
    rw [show pyTruthy (some "0".data) = true from rfl]
    rfl
  have hcond : (pyTruthy (doc_id_of d) && (xbrl_flag_of d == "1".data)) = false := by
    rw [hflag]
    rw [show ("0".data == "1".data) = false from rfl, Bool.and_false]
  constructor
  · simp [enrich_document, hcond]
  · intro kv hkv
    simp only [enrich_document, hcond, Bool.false_eq_true, if_false]
    obtain ⟨k, als⟩ := kv
    exact lookup_map_entry (fun _ => (none : Option ℚ)) COMMON_METRICS k als (by decide) hkv

/-- C8 witness: a concrete document with a doc id and `xbrlFlag = "0"`. -/
theorem C8_no_xbrl_witness :
    (enrich_document (some [])
        ⟨some "S100TEST".data, none, some "0".data, none⟩).2 = false
    ∧ (enrich_document (some [])
        ⟨some "S100TEST".data, none, some "0".data, none⟩).1.1.lookup "sales_amount".data
      = some none :=
  ⟨(C8_no_xbrl_no_fetch ⟨some "S100TEST".data, none, some "0".data, none⟩ (some []) rfl).1,
    (C8_no_xbrl_no_fetch ⟨some "S100TEST".data, none, some "0".data, none⟩ (some []) rfl).2
      ("sales_amount".data,
        ["netsales".data, "netsalessummaryofbusinessresults".data, "revenue".data,
          "revenuesummaryofbusinessresults".data, "operatingrevenue".data,
          "operatingrevenuesummaryofbusinessresults".data]) (by decide)⟩

/-- C9: the Archive Unpacker returns "not found" when no recognized-extension
entry parses to an expected root (in particular for an archive with only a
.xsd schema), and any returned entry is a recognized-extension entry that
parses to an expected root and whose size is at least that of every other
such candidate (it is the first hit in size-descending order). -/
theorem C9_archive_unpacker (entries : List ZipEntry) :
    ((∀ e ∈ entries, recognized_ext e.name = true → ok_root e = false) →
      extract_xbrl_bytes entries = none)
    ∧ (∀ e, extract_xbrl_bytes entries = some e →
        e ∈ entries ∧ recognized_ext e.name = true ∧ ok_root e = true
        ∧ ∀ e2 ∈ entries, recognized_ext e2.name = true → ok_root e2 = true →
            e2.file_size ≤ e.file_size) := by
  constructor
  · intro hall
    apply List.find?_eq_none.mpr
    intro e he
    have hmem : e ∈ entries.filter (fun e => recognized_ext e.name) :=
      (List.mergeSort_perm _ _).mem_iff.mp he
    have hrec := List.mem_filter.mp hmem
    rw [hall e hrec.1 hrec.2]
    exact Bool.false_ne_true
  · intro e hfind
    have hok : ok_root e = true := List.find?_some hfind
    have hmem_f : e ∈ entries.filter (fun e => recognized_ext e.name) :=
      (List.mergeSort_perm _ _).mem_iff.mp (List.mem_of_find?_eq_some hfind)
    have hin := List.mem_filter.mp hmem_f
    refine ⟨hin.1, hin.2, hok, ?_⟩
    intro e2 h2in h2rec h2ok
    have h2sorted : e2 ∈ (entries.filter (fun e => recognized_ext e.name)).mergeSort
        (fun a b => b.file_size ≤ a.file_size) :=
      (List.mergeSort_perm _ _).mem_iff.mpr (List.mem_filter.mpr ⟨h2in, h2rec⟩)
    have hsorted := @List.sorted_mergeSort ZipEntry
      (fun a b => decide (b.file_size ≤ a.file_size))
      (fun a b c h1 h2 => by
        simp only [decide_eq_true_eq] at h1 h2 ⊢
        omega)
      (fun a b => by
        simp only [Bool.or_eq_true, decide_eq_true_eq]
        omega)
      (entries.filter (fun e => recognized_ext e.name))
    rcases List.find?_eq_some.mp hfind with ⟨hpe, as2, bs, hsplit, hbefore⟩
    rw [hsplit] at hsorted h2sorted
    rcases List.mem_append.mp h2sorted with h2as | h2ebs
    · have hb := hbefore e2 h2as
      rw [h2ok] at hb
      exact absurd hb (by simp)
    · rcases List.mem_cons.mp h2ebs with h2e | h2bs
      · rw [h2e]
      · have hpw := (List.pairwise_append.mp hsorted).2.1
        have hrel := (List.pairwise_cons.mp hpw).1 e2 h2bs
        simpa using hrel

/-- C9 witness: an archive whose only entry is a `.xsd` schema file — not a
recognized candidate extension — yields "not found". -/
theorem C9_archive_witness :
    extract_xbrl_bytes [⟨"XBRL/PublicDoc/schema.xsd".data, 4096, some "schema".data⟩] = none :=
  (C9_archive_unpacker [⟨"XBRL/PublicDoc/schema.xsd".data, 4096, some "schema".data⟩]).1
    (by decide)

/-- C3: for any completion order of the worker pool (any permutation of the
batch), the fan-in emits exactly one output record per input document — the
flattened per-date groups are a permutation of the per-document results, with
no drops and no duplication — and a document whose worker raised is still
emitted (as itself, i.e. with its metrics left null). -/
theorem C3_orchestrator_totality (α ε : Type) (dateOf : α → PyStr) (run : α → Except ε α)
    (docs order : List α) (h : order.Perm docs) :
    (((fan_in dateOf run order).map Prod.snd).flatten).Perm (docs.map (process run))
    ∧ (((fan_in dateOf run order).map Prod.snd).flatten).length = docs.length
    ∧ ∀ d ∈ docs, ∀ e, run d = Except.error e →
        d ∈ ((fan_in dateOf run order).map Prod.snd).flatten := by
  have hperm := (join_fan_in dateOf run order).trans (h.map (process run))
  refine ⟨hperm, ?_, ?_⟩
  · rw [hperm.length_eq, List.length_map]
  · intro d hd e herr
    have hpd : process run d = d := by
      unfold process
      rw [herr]
    exact hperm.mem_iff.mpr (List.mem_map.mpr ⟨d, hd, hpd⟩)

/-- C3 witness: a two-document batch completing out of order, where document 0
fails and document 1 succeeds. -/
theorem C3_orchestrator_witness :
    (((fan_in (fun _ => "2025-01-06".data)
          (fun n => if n = 0 then Except.error "boom".data else Except.ok (n + 100))
          [1, 0]).map Prod.snd).flatten).Perm
        (([0, 1] : List ℕ).map
          (process (fun n => if n = 0 then Except.error "boom".data else Except.ok (n + 100))))
    ∧ (((fan_in (fun _ => "2025-01-06".data)
          (fun n => if n = 0 then Except.error "boom".data else Except.ok (n + 100))
          [1, 0]).map Prod.snd).flatten).length = ([0, 1] : List ℕ).length
    ∧ ∀ d ∈ ([0, 1] : List ℕ), ∀ e, (if d = 0 then Except.error "boom".data
          else Except.ok (d + 100)) = Except.error e →
        d ∈ ((fan_in (fun _ => "2025-01-06".data)
          (fun n => if n = 0 then Except.error "boom".data else Except.ok (n + 100))
          [1, 0]).map Prod.snd).flatten :=
  C3_orchestrator_totality ℕ PyStr (fun _ => "2025-01-06".data)
    (fun n => if n = 0 then Except.error "boom".data else Except.ok (n + 100))
    [0, 1] [1, 0] (by decide)

/-- C1 (amended): the main script's `save_documents` upserts by `doc_id` —
given a store with unique doc ids, the saved store still has unique doc ids,
and for any id written in the batch exactly one row with that id remains,
carrying the columns of the batch's last row for that id (last write wins,
all non-key columns updated).  The skip variant's `save_documents` instead
leaves an existing row for a written id entirely unchanged (first write wins,
still exactly one row per id). -/
theorem C1_upsert_by_doc_id (α : Type) (store rows : List (SRow α)) (i : PyStr)
    (hu : ((store.filterMap SRow.doc_id)).Nodup) :
    (((save_documents store rows).filterMap SRow.doc_id)).Nodup
    ∧ (∀ r, rows.reverse.find? (fun x => x.doc_id == some i) = some r →
        (save_documents store rows).filter (fun x => x.doc_id == some i) =
          [{ doc_id := some i, cols := r.cols }])
    ∧ (∀ c, store.filter (fun x => x.doc_id == some i) = [{ doc_id := some i, cols := c }] →
        (save_documents_skip store rows).filter (fun x => x.doc_id == some i) =
          [{ doc_id := some i, cols := c }]) :=
  ⟨save_nodup rows store hu,
    fun r hf => save_filter_find rows store i hu r hf,
    fun c hc => save_skip_filter rows store i c hc⟩

/-- C1 counterexample: in the skip variant, re-ingesting doc id "D1" with a
new column value 2 leaves the previously stored value 1 in place — the
enrichment columns are not updated to the latest computed values, refuting
last-write-wins for `edinet_fetch_financials_skip.py`'s `save_documents`. -/
theorem C1_counterexample :
    save_documents_skip [⟨some "D1".data, (1 : ℕ)⟩] [⟨some "D1".data, 2⟩]
      = [⟨some "D1".data, 1⟩]
    ∧ (1 : ℕ) ≠ 2 := by
  constructor
  · rfl
  · decide

/-- C1 witness: a store holding doc id "D1" with value 1; the main script's
upsert of two successive rows for "D1" keeps one row with the last value 3,
while the skip variant keeps the original value 1. -/
theorem C1_upsert_witness :
    (save_documents [⟨some "D1".data, (1 : ℕ)⟩]
        [⟨some "D1".data, 2⟩, ⟨some "D1".data, 3⟩]).filter
        (fun x => x.doc_id == some "D1".data)
      = [⟨some "D1".data, 3⟩]
    ∧ (save_documents_skip [⟨some "D1".data, (1 : ℕ)⟩]
        [⟨some "D1".data, 2⟩, ⟨some "D1".data, 3⟩]).filter
        (fun x => x.doc_id == some "D1".data)
      = [⟨some "D1".data, 1⟩] :=
  ⟨(C1_upsert_by_doc_id ℕ [⟨some "D1".data, 1⟩] [⟨some "D1".data, 2⟩, ⟨some "D1".data, 3⟩]
      "D1".data (by decide)).2.1 ⟨some "D1".data, 3⟩ (by decide),
    (C1_upsert_by_doc_id ℕ [⟨some "D1".data, 1⟩] [⟨some "D1".data, 2⟩, ⟨some "D1".data, 3⟩]
      "D1".data (by decide)).2.2 1 (by decide)⟩

/-- C10: every rounded column's cell in the main script's row tuple is
`round_numeric` of the document's value for it, and `round_numeric` sends null
to null, integers to themselves unchanged, floats to their value rounded to 4
decimal places (so the stored value differs from the computed one by at most
half of 10 ^ (-4)), and unparseable values to null. -/
theorem C10_rounded_persistence (doc : PyStr → PyVal) (c : PyStr)
    (hc : c ∈ roundedColumns) :
    (c, round_numeric (doc c)) ∈ save_row_numeric doc
    ∧ round_numeric PyVal.vNone = PyVal.vNone
    ∧ (∀ n : ℤ, round_numeric (PyVal.vInt n) = PyVal.vInt n)
    ∧ (∀ q : ℚ, round_numeric (PyVal.vFloat q) = PyVal.vFloat (round4 q)
        ∧ |round4 q - q| ≤ 1 / 20000)
    ∧ (∀ s : PyStr, py_float_text (trimChars s) = none →
        round_numeric (PyVal.vStr s) = PyVal.vNone) := by
  refine ⟨?_, rfl, fun n => rfl, fun q => ⟨rfl, round4_abs_sub_le q⟩, ?_⟩
  · exact List.mem_map.mpr ⟨c, hc, rfl⟩
  · intro s hs
    simp [round_numeric, py_float, hs]

/-- C10 witness: the theorem applied at the `eps` column of a document whose
values are an integer (stored unchanged) and a float (stored rounded within
half of 10 ^ (-4)). -/
theorem C10_rounded_witness :
    ("eps".data, round_numeric ((fun _ => PyVal.vInt 7) "eps".data)) ∈
        save_row_numeric (fun _ => PyVal.vInt 7)
    ∧ round_numeric (PyVal.vInt 7) = PyVal.vInt 7
    ∧ (round_numeric (PyVal.vFloat ((1 : ℚ) / 3)) = PyVal.vFloat (round4 ((1 : ℚ) / 3))
        ∧ |round4 ((1 : ℚ) / 3) - (1 : ℚ) / 3| ≤ 1 / 20000) :=
  ⟨(C10_rounded_persistence (fun _ => PyVal.vInt 7) "eps".data (by decide)).1,
    (C10_rounded_persistence (fun _ => PyVal.vInt 7) "eps".data (by decide)).2.2.1 7,
    (C10_rounded_persistence (fun _ => PyVal.vInt 7) "eps".data (by decide)).2.2.2.1 ((1 : ℚ) / 3)⟩

end Edinet
